import Mathlib

set_option maxRecDepth 8192

/-!
Verification of the two MkDocs build hooks of this repository:

* `hooks/sitemap_extras.py` — the Sitemap Augmenter (`on_post_build`):
  parses `<site_dir>/sitemap.xml`, collects the set of existing `loc`
  texts, and appends a `url`/`loc` element for each configured extra URL
  that is not already present, then rewrites the file.
* `hooks/socialmedia.py` — the Share-Link Injector (`on_page_markdown`):
  for pages whose URL matches a regex, appends a newsletter embed and
  share-link trailer to the page markdown.

The embedding models the sitemap document by the list of its `loc` text
values in document order (each `url` element of the document carries one
`loc` child, which is all the hook reads and writes), the filesystem
interaction by an `Option` (a missing `sitemap.xml` is `none`, and an
output of `none` means no file was written), and the page/config objects
by structures carrying the fields the hooks read plus an opaque rest.
-/

/-- The MkDocs config record, as read by the two hooks: `socialmedia.py`
reads `config.site_url`; `sitemap_extras.py` reads `config["site_dir"]`
(to locate the sitemap file) and `config["site_url"]`. The field `extra`
stands for every other config entry, which the hooks never read. -/
structure Config where
  site_url : String
  site_dir : String
  extra : String

/-- `extra_urls` from `sitemap_extras.py` (lines 16-19): the two
f-strings append the fixed relative paths to `config['site_url']`. -/
def extra_urls (site_url : String) : List String :=
  [site_url ++ "llms.txt", site_url ++ "robots.txt"]

/-- The document transformation of `on_post_build` (lines 20-26 of
`sitemap_extras.py`): `existing` is the set of `loc` texts collected
before the loop, and each extra URL not in that set is appended (as a new
`url` element with one `loc` child) at the end of the root. -/
def augment (site_url : String) (locs : List String) : List String :=
  let existing := locs
  (extra_urls site_url).foldl
    (fun root url => if url ∈ existing then root else root ++ [url]) locs

/-- `on_post_build` from `sitemap_extras.py`. The `sitemap` argument is
`none` when `<site_dir>/sitemap.xml` does not exist, in which case the
hook returns before parsing or writing anything (lines 6-9); otherwise it
parses the document, augments it, and writes it back (`some` result). -/
def on_post_build (config : Config) (sitemap : Option (List String)) :
    Option (List String) :=
  match sitemap with
  | none => none
  | some locs => some (augment config.site_url locs)

/-- A concrete config for witnesses, matching the site's real base URL. -/
def cfgX : Config :=
  { site_url := "https://x.io/", site_dir := "site", extra := "" }

-- scratch checks
example : augment "https://x.io/" ["https://x.io/"] =
    ["https://x.io/", "https://x.io/llms.txt", "https://x.io/robots.txt"] := by
  decide

example :
    on_post_build cfgX (some ["https://x.io/", "https://x.io/llms.txt"]) =
      some ["https://x.io/", "https://x.io/llms.txt", "https://x.io/robots.txt"] := by
  decide

/-- Unfolding of `augment` into an append of the filtered extra list. -/
theorem augment_eq_append (site_url : String) (locs : List String) :
    augment site_url locs =
      locs ++ (extra_urls site_url).filter (fun u => decide (u ∉ locs)) := by
  by_cases h1 : site_url ++ "llms.txt" ∈ locs <;>
    by_cases h2 : site_url ++ "robots.txt" ∈ locs <;>
      simp [augment, extra_urls, h1, h2]

/-- The two extra URLs are distinct strings (same base, different tails). -/
theorem extra_urls_ne (site_url : String) :
    site_url ++ "llms.txt" ≠ site_url ++ "robots.txt" := by
  intro h
  have hd := congrArg String.data h
  rw [String.data_append, String.data_append] at hd
  have := List.append_cancel_left hd
  have hne : ("llms.txt" : String).data ≠ ("robots.txt" : String).data := by decide
  exact hne this

/-- C5: if the sitemap file does not exist at `<site_dir>/sitemap.xml`,
`on_post_build` is a silent no-op: it returns without error and writes no
file (output `none`). -/
theorem on_post_build_missing_file_noop (config : Config) :
    on_post_build config none = none := rfl

/-- Both extra URLs are members of the augmented document. -/
theorem mem_augment (site_url : String) (locs : List String)
    (u : String) (hu : u ∈ extra_urls site_url) :
    u ∈ augment site_url locs := by
  rw [augment_eq_append]
  by_cases h : u ∈ locs
  · exact List.mem_append_left _ h
  · refine List.mem_append_right _ ?_
    simp [List.mem_filter, hu, h]

/-- C1: the Sitemap Augmenter is idempotent.  Running `on_post_build` a
second time on the file it produced returns that file unchanged (hence
the same set of `loc` values), and on a well-formed (duplicate-free)
input the output has no duplicate `loc` entries. -/
theorem on_post_build_idempotent (config : Config) (locs : List String) :
    on_post_build config (on_post_build config (some locs)) =
      on_post_build config (some locs)
    ∧ (locs.Nodup → (augment config.site_url locs).Nodup) := by
  constructor
  · show some (augment _ (augment _ locs)) = some (augment _ locs)
    have h1 := mem_augment config.site_url locs (config.site_url ++ "llms.txt")
      (by simp [extra_urls])
    have h2 := mem_augment config.site_url locs (config.site_url ++ "robots.txt")
      (by simp [extra_urls])
    have : augment config.site_url (augment config.site_url locs) =
        augment config.site_url locs := by
      conv_lhs => rw [augment_eq_append]
      simp [extra_urls, List.filter, h1, h2]
    rw [this]
  · intro hnd
    rw [augment_eq_append]
    refine List.Nodup.append hnd ?_ ?_
    · refine List.Nodup.filter _ ?_
      simp [extra_urls, extra_urls_ne config.site_url]
    · intro a ha haf
      have := (List.mem_filter.mp haf).2
      simp at this
      exact this ha

/-- C1 witness at a concrete sitemap. -/
theorem on_post_build_idempotent_witness :
    on_post_build cfgX (on_post_build cfgX (some ["https://x.io/"])) =
      on_post_build cfgX (some ["https://x.io/"])
    ∧ (augment cfgX.site_url ["https://x.io/"]).Nodup := by
  have h := on_post_build_idempotent cfgX ["https://x.io/"]
  exact ⟨h.1, h.2 (by decide)⟩

/-- C2: non-destructive insertion.  After augmentation the document has
exactly `N + M` entries, where `M` counts the configured extra URLs not
already present; each such extra URL occurs exactly once; and the
pre-existing entries form an unchanged initial segment of the output (no
entry is removed, altered, or reordered). -/
theorem augment_non_destructive (site_url : String) (locs : List String) :
    (augment site_url locs).length =
      locs.length +
        ((extra_urls site_url).filter (fun u => decide (u ∉ locs))).length
    ∧ (∀ u ∈ extra_urls site_url, u ∉ locs →
        (augment site_url locs).count u = 1)
    ∧ ∃ t, augment site_url locs = locs ++ t := by
  refine ⟨?_, ?_, ⟨_, augment_eq_append site_url locs⟩⟩
  · rw [augment_eq_append, List.length_append]
  · intro u hu hnotin
    rw [augment_eq_append, List.count_append]
    have h0 : locs.count u = 0 := by
      exact List.count_eq_zero.mpr hnotin
    rw [h0]
    have hne := extra_urls_ne site_url
    have hne2 := Ne.symm hne
    simp only [extra_urls, List.mem_cons, List.not_mem_nil, or_false] at hu
    rcases hu with rfl | rfl
    · by_cases h2 : site_url ++ "robots.txt" ∈ locs <;>
        simp [List.filter, List.count_cons, hnotin, h2, hne]
    · by_cases h1 : site_url ++ "llms.txt" ∈ locs <;>
        simp [List.filter, List.count_cons, hnotin, h1, hne2]

/-- C2 witness at a concrete sitemap with one pre-existing entry. -/
theorem augment_non_destructive_witness :
    (augment "https://x.io/" ["https://x.io/"]).length =
      (["https://x.io/"] : List String).length +
        ((extra_urls "https://x.io/").filter
          (fun u => decide (u ∉ (["https://x.io/"] : List String)))).length
    ∧ (augment "https://x.io/" ["https://x.io/"]).count "https://x.io/llms.txt" = 1 := by
  have h := augment_non_destructive "https://x.io/" ["https://x.io/"]
  exact ⟨h.1, h.2.1 "https://x.io/llms.txt" (by decide) (by decide)⟩

/-- C6: deduplication is exact string equality against the existing `loc`
texts, with no normalization.  Each extra URL is appended exactly when its
exact string is absent (the count rises by one iff it is not a member),
and concretely a trailing-slash variant or an upper-case scheme variant of
`llms.txt` in the document does not suppress insertion. -/
theorem augment_dedup_exact_string (site_url : String) (locs : List String)
    (u : String) (hu : u ∈ extra_urls site_url) :
    (augment site_url locs).count u =
      locs.count u + (if u ∈ locs then 0 else 1)
    ∧ augment "https://x.io/" ["https://x.io/llms.txt/"] =
        ["https://x.io/llms.txt/", "https://x.io/llms.txt", "https://x.io/robots.txt"]
    ∧ augment "https://x.io/" ["HTTPS://x.io/llms.txt"] =
        ["HTTPS://x.io/llms.txt", "https://x.io/llms.txt", "https://x.io/robots.txt"] := by
  refine ⟨?_, ?conc1, ?conc2⟩
  case conc1 => decide
  case conc2 => decide
  rw [augment_eq_append, List.count_append]
  have hne := extra_urls_ne site_url
  have hne2 := Ne.symm hne
  by_cases hmem : u ∈ locs
  · have hz : ((extra_urls site_url).filter (fun v => decide (v ∉ locs))).count u = 0 := by
      refine List.count_eq_zero.mpr ?_
      intro hc
      have hp := (List.mem_filter.mp hc).2
      simp at hp
      exact hp hmem
    rw [hz]
    simp [hmem]
  · have hz : locs.count u = 0 := List.count_eq_zero.mpr hmem
    rw [hz]
    simp only [hmem, if_neg, Nat.zero_add, if_false]
    simp only [extra_urls, List.mem_cons, List.not_mem_nil, or_false] at hu
    rcases hu with rfl | rfl
    · by_cases h2 : site_url ++ "robots.txt" ∈ locs <;>
        simp [List.filter, List.count_cons, hmem, h2, hne]
    · by_cases h1 : site_url ++ "llms.txt" ∈ locs <;>
        simp [List.filter, List.count_cons, hmem, h1, hne2]

/-- C6 witness: the trailing-slash variant in the document does not count
as the extra URL, so the exact string is still appended once. -/
theorem augment_dedup_exact_string_witness :
    (augment "https://x.io/" ["https://x.io/llms.txt/"]).count "https://x.io/llms.txt" =
      (["https://x.io/llms.txt/"] : List String).count "https://x.io/llms.txt" +
        (if "https://x.io/llms.txt" ∈ (["https://x.io/llms.txt/"] : List String)
          then 0 else 1)
    ∧ augment "https://x.io/" ["https://x.io/llms.txt/"] =
        ["https://x.io/llms.txt/", "https://x.io/llms.txt", "https://x.io/robots.txt"] := by
  have h := augment_dedup_exact_string "https://x.io/" ["https://x.io/llms.txt/"]
    "https://x.io/llms.txt" (by simp [extra_urls])
  exact ⟨h.1, h.2.1⟩

/-! ## Share-Link Injector (`hooks/socialmedia.py`) -/

/-- Regular-expression syntax covering exactly the constructs used by the
module-level pattern `(blogs|projects)/(?!archive|category).+` of
`socialmedia.py`: string literals, alternation, concatenation, negative
lookahead, and one-or-more of a character class (Python `.` is the class
of all characters except a newline, since `DOTALL` is not set). -/
inductive RE where
  | lit : List Char → RE
  | alt : RE → RE → RE
  | seq : RE → RE → RE
  | negLA : RE → RE
  | plusCls : (Char → Bool) → RE

/-- Match one or more characters of class `p` at the head of the input,
then continue with `k` (backtracking over every possible split). -/
def matPlus (p : Char → Bool) : List Char → (List Char → Bool) → Bool
  | [], _ => false
  | c :: rest, k => p c && (k rest || matPlus p rest k)

/-- Continuation-passing regex matcher: `mat r s k` holds when some split
`s = s1 ++ s2` has `s1` in the language of `r` and `k s2` true.  Negative
lookahead consumes nothing and requires that `r` match no part of the
remaining input from this position. -/
def mat : RE → List Char → (List Char → Bool) → Bool
  | .lit cs, s, k => cs.isPrefixOf s && k (s.drop cs.length)
  | .alt a b, s, k => mat a s k || mat b s k
  | .seq a b, s, k => mat a s (fun t => mat b t k)
  | .negLA r, s, k => !(mat r s (fun _ => true)) && k s
  | .plusCls p, s, k => matPlus p s k

/-- The compiled module-level pattern `include` of `socialmedia.py`
(line 9): `re.compile(r"(blogs|projects)/(?!archive|category).+")`. -/
def include_re : RE :=
  .seq (.alt (.lit ("blogs").data) (.lit ("projects").data))
    (.seq (.lit ("/").data)
      (.seq (.negLA (.alt (.lit ("archive").data) (.lit ("category").data)))
        (.plusCls (fun c => c != '\n'))))

/-- `include.match(url)` succeeds: Python `re.match` anchors the pattern
at the start of the string and lets it end anywhere (continuation that
accepts every remainder). -/
def include_match (url : String) : Bool :=
  mat include_re url.data (fun _ => true)

-- scratch checks of the regex semantics
example : include_match "blogs/my-post" = true := by decide
example : include_match "projects/tool-x/" = true := by decide
example : include_match "blogs/" = false := by decide
example : include_match "projects/" = false := by decide
example : include_match "blogs/archive/2023" = false := by decide
example : include_match "projects/category/tools" = false := by decide
example : include_match "about/" = false := by decide
example : include_match "blogs/category-x" = false := by decide
example : include_match "blogs/categories" = true := by decide
example : include_match "blogs/archives" = false := by decide

/-- UTF-8 encoding of one character as its byte values, as produced by
Python's `str.encode('utf-8')` inside `urllib.parse.quote`. -/
def utf8_bytes (c : Char) : List Nat :=
  let n := c.toNat
  if n < 0x80 then [n]
  else if n < 0x800 then [0xC0 + n / 64, 0x80 + n % 64]
  else if n < 0x10000 then
    [0xE0 + n / 4096, 0x80 + (n / 64) % 64, 0x80 + n % 64]
  else
    [0xF0 + n / 262144, 0x80 + (n / 4096) % 64, 0x80 + (n / 64) % 64,
      0x80 + n % 64]

/-- Upper-case hexadecimal digit, as emitted by `urllib.parse.quote`. -/
def hex_upper (n : Nat) : Char :=
  if n < 10 then Char.ofNat (48 + n) else Char.ofNat (55 + n)

/-- The characters `urllib.parse.quote` leaves unencoded: the always-safe
set (ASCII letters, digits, `_.-~`) plus the default `safe='/'`. -/
def quote_safe (c : Char) : Bool :=
  c.isAlpha || c.isDigit || c == '_' || c == '.' || c == '-' || c == '~' ||
    c == '/'

/-- Percent-encoding of a single character: safe characters pass through,
every other character is replaced by `%XX` for each of its UTF-8 bytes. -/
def quote_char (c : Char) : List Char :=
  if quote_safe c then [c]
  else (utf8_bytes c).flatMap
    (fun b => ['%', hex_upper (b / 16), hex_upper (b % 16)])

/-- `urllib.parse.quote` with its default arguments, as called on
line 19 of `socialmedia.py`. -/
def quote (s : String) : String :=
  ⟨s.data.flatMap quote_char⟩

-- scratch checks against CPython behaviour
example : quote "Hello World\n" = "Hello%20World%0A" := by decide
example : quote "\n" = "%0A" := by decide
example : quote "a/b_c.d-e~" = "a/b_c.d-e~" := by decide
example : quote "é" = "%C3%A9" := by decide

/-- Module constant `x_intent` of `socialmedia.py` (line 5). -/
def x_intent : String := "https://x.com/intent/tweet"

/-- Module constant `fb_sharer` of `socialmedia.py` (line 6). -/
def fb_sharer : String := "https://www.facebook.com/sharer/sharer.php"

/-- Module constant `linkedin_sharer` of `socialmedia.py` (line 7); the
line that would use it is commented out, so it is never read. -/
def linkedin_sharer : String := "https://www.linkedin.com/shareArticle"

/-- A blank of CPython's `textwrap` dedent margin: space or tab
(the `[ \t]` of its two regexes). -/
def is_ws (c : Char) : Bool := c == ' ' || c == '\t'

/-- A line consisting solely of whitespace (the `^[ \t]+$` lines that
`textwrap.dedent` normalizes to empty before computing the margin). -/
def ws_only (l : List Char) : Bool := !l.isEmpty && l.all is_ws

/-- Longest common prefix of two indents — the net effect of the
`startswith`/first-mismatch margin reduction loop in `textwrap.dedent`. -/
def lcp : List Char → List Char → List Char
  | a :: as, b :: bs => if a = b then a :: lcp as bs else []
  | _, _ => []

/-- Split a text into its lines at `'\n'`, keeping empty segments (the
segments at which the `MULTILINE` `^` of dedent's regexes anchors). -/
def split_nl : List Char → List (List Char)
  | [] => [[]]
  | c :: rest =>
    if c = '\n' then [] :: split_nl rest
    else
      match split_nl rest with
      | [] => [[c]]
      | l :: ls => (c :: l) :: ls

/-- Rejoin lines with `'\n'`; inverse of `split_nl`. -/
def join_nl : List (List Char) → List Char
  | [] => []
  | [l] => l
  | l :: ls => l ++ '\n' :: join_nl ls

/-- The line pipeline of CPython's `textwrap.dedent`: (1) lines of only
whitespace are replaced by empty lines (`_whitespace_only_re.sub`);
(2) the indent (`[ \t]*` before a non-blank character) of every
remaining line with content is collected; (3) the margin is the longest
common prefix of those indents (their `startswith`/mismatch reduction),
empty when no line has content; (4) a non-empty margin is stripped from
the front of every line that starts with it (`re.sub(r'(?m)^'+margin)`).
Working per line is equivalent to the regex substitutions on the whole
text, since those never touch a newline. -/
def dedent_lines (ls : List (List Char)) : List (List Char) :=
  let lines := ls.map (fun l => if ws_only l then [] else l)
  let indents :=
    (lines.filter (fun l => !(l.dropWhile is_ws).isEmpty)).map
      (fun l => l.takeWhile is_ws)
  let margin :=
    match indents with
    | [] => []
    | i :: rest => rest.foldl lcp i
  if margin.isEmpty then lines
  else lines.map
    (fun l => if margin.isPrefixOf l then l.drop margin.length else l)

/-- `textwrap.dedent`, as called on line 21 of `socialmedia.py` — on the
f-string AFTER interpolation, so interpolated values participate in the
margin computation and in per-line stripping. -/
def dedent (text : String) : String :=
  ⟨join_nl (dedent_lines (split_nl text.data))⟩

/-- The f-string literal of lines 21-36 of `socialmedia.py`, written
line by line exactly as in the source (blank lines are empty, content
lines carry the four-space margin, the iframe line eight spaces, the
final line before the closing quotes is four spaces), with the five
interpolation holes (`x_intent`, `page_title`, `page_url`, `fb_sharer`,
`page_url`) spliced into their two lines. -/
def f_lines (page_title page_url : String) : List (List Char) :=
  [ [],
    ("    ---").data,
    ("    ## Stay Updated").data,
    [],
    ("    Join my newsletter for the latest insights on Document AI, RAG, and LLM technologies:").data,
    [],
    ("    <div style=\"background: linear-gradient(135deg, #667eea 0%, #764ba2 100%); padding: 1rem; border-radius: 8px; margin: 1.5rem 0;\">").data,
    ("        <iframe src=\"https://documentai.substack.com/embed\" width=\"100%\" height=\"320\" style=\"border: none; background: white; border-radius: 4px; max-width: 100%;\" frameborder=\"0\" scrolling=\"no\"></iframe>").data,
    ("    </div>").data,
    [],
    ("    ---").data,
    ("    ## Share This Post").data,
    [],
    ("    [Share on :simple-x:](").data ++ x_intent.data ++ ("?text=").data ++
      page_title.data ++ ("&url=").data ++ page_url.data ++
      (")\x7b .md-button \x7d").data,
    ("    [Share on :material-facebook:](").data ++ fb_sharer.data ++
      ("?u=").data ++ page_url.data ++ (")\x7b .md-button \x7d").data,
    ("    ").data ]

/-- The interpolated (not yet dedented) f-string of lines 21-36: its
lines joined by newlines. -/
def f_template (page_title page_url : String) : String :=
  ⟨join_nl (f_lines page_title page_url)⟩

/-- The literal part of the DEDENTED trailer before the first
interpolation, used to describe `dedent`'s output when the interpolated
values contain no newline (theorem `dedent_template` below). -/
def trailer_head : String :=
  "\n---\n## Stay Updated\n\nJoin my newsletter for the latest insights on Document AI, RAG, and LLM technologies:\n\n<div style=\"background: linear-gradient(135deg, #667eea 0%, #764ba2 100%); padding: 1rem; border-radius: 8px; margin: 1.5rem 0;\">\n    <iframe src=\"https://documentai.substack.com/embed\" width=\"100%\" height=\"320\" style=\"border: none; background: white; border-radius: 4px; max-width: 100%;\" frameborder=\"0\" scrolling=\"no\"></iframe>\n</div>\n\n---\n## Share This Post\n\n[Share on :simple-x:]("

/-- The literal closing a share link in the dedented trailer:
`){{ .md-button }}` renders the doubled braces as literal braces,
followed by the line's newline. -/
def btn_close : String := ")\x7b .md-button \x7d\n"

/-- The dedented trailer for interpolated values without newlines: every
template line then keeps its shape, the margin is the common four-space
indent, and `dedent (f_template t u)` equals this fixed string (theorem
`dedent_template`).  Newline-containing values change the margin and the
per-line stripping, so this is NOT the program's trailer in general. -/
def share_trailer (page_title page_url : String) : String :=
  trailer_head ++ x_intent ++ "?text=" ++ page_title ++ "&url=" ++ page_url ++
    btn_close ++ "[Share on :material-facebook:](" ++ fb_sharer ++ "?u=" ++
    page_url ++ btn_close

/-- The page descriptor, as read by `on_page_markdown`: the hook reads
only `page.url` (site-relative URL path) and `page.title`.  The field
`meta` stands for every other page attribute, which the hook never
reads. -/
structure Page where
  url : String
  title : String
  meta : String

/-- `on_page_markdown` from `socialmedia.py` (lines 12-36): return the
markdown unchanged when the `include` pattern does not match the page
URL; otherwise append `dedent` of the interpolated f-string built from
the percent-encoded title (with the appended `"\n"`) and the
concatenated absolute page URL.  The Python function is pure: it only
reads `page`, `config` and the module constants, so the embedding
returns just the new markdown. -/
def on_page_markdown (markdown : String) (page : Page) (config : Config) :
    String :=
  if !(include_match page.url) then markdown
  else
    let page_url := config.site_url ++ page.url
    let page_title := quote (page.title ++ "\n")
    markdown ++ dedent (f_template page_title page_url)

-- sanity checks of the dedent model against CPython outputs
example : (share_trailer "T" "U").length = 642 := by decide
example : dedent (f_template "T" "U") = share_trailer "T" "U" := by decide
example : (dedent (f_template "T" "https://x.io/\n    Ablogs/my-post")).length = 696 := by
  decide
example : (dedent (f_template "T" "https://x.io/\nX")).length = 710 := by decide
example : (dedent (f_template "T" "https://x.io/\n  X")).length = 690 := by decide
example : on_page_markdown "BODY" ⟨"about/", "T", ""⟩ cfgX = "BODY" := by decide

/-- String append is associative (via the underlying character lists). -/
theorem str_append_assoc (a b c : String) : a ++ b ++ c = a ++ (b ++ c) := by
  apply String.ext
  simp [String.data_append]

/-- `split_nl` always yields at least one segment. -/
theorem split_nl_ne_nil (l : List Char) : split_nl l ≠ [] := by
  induction l with
  | nil => simp [split_nl]
  | cons c rest ih =>
    rw [split_nl]
    by_cases hc : c = '\n'
    · simp [hc]
    · rw [if_neg hc]
      cases hsp : split_nl rest with
      | nil => exact absurd hsp ih
      | cons l ls => simp

/-- A newline-free text is a single line. -/
theorem split_nl_no_nl (l : List Char) (h : '\n' ∉ l) : split_nl l = [l] := by
  induction l with
  | nil => rfl
  | cons c rest ih =>
    have hc : c ≠ '\n' := by
      intro hh
      exact h (by simp [hh])
    have hr : '\n' ∉ rest := fun hh => h (by simp [hh])
    rw [split_nl, if_neg hc, ih hr]

/-- Splitting past a newline-free first line peels it off. -/
theorem split_nl_append_nl (a r : List Char) (h : '\n' ∉ a) :
    split_nl (a ++ '\n' :: r) = a :: split_nl r := by
  induction a with
  | nil => simp [split_nl]
  | cons c a ih =>
    have hc : c ≠ '\n' := by
      intro hh
      exact h (by simp [hh])
    have ha : '\n' ∉ a := fun hh => h (by simp [hh])
    rw [List.cons_append, split_nl, if_neg hc, ih ha]

/-- `split_nl` recovers the lines joined by `join_nl` when no line
contains a newline. -/
theorem split_nl_join_nl (ls : List (List Char)) (hne : ls ≠ [])
    (h : ∀ l ∈ ls, '\n' ∉ l) : split_nl (join_nl ls) = ls := by
  induction ls with
  | nil => exact absurd rfl hne
  | cons a ls ih =>
    cases ls with
    | nil => exact split_nl_no_nl a (h a (by simp))
    | cons b ls2 =>
      have hj : join_nl (a :: b :: ls2) = a ++ '\n' :: join_nl (b :: ls2) := rfl
      rw [hj, split_nl_append_nl a _ (h a (by simp)),
        ih (by simp) (fun l hl => h l (by simp [hl]))]

/-- `dedent_lines` never changes the number of lines. -/
theorem dedent_lines_length (ls : List (List Char)) :
    (dedent_lines ls).length = ls.length := by
  simp only [dedent_lines]
  split <;> simp

set_option maxHeartbeats 2000000 in
/-- The interpolated template always dedents to a non-empty string: its
first line is empty, so the result starts with a newline whatever the
interpolated values are. -/
theorem dedent_f_template_ne (t u : String) : dedent (f_template t u) ≠ "" := by
  intro h
  have hd2 : join_nl (dedent_lines (split_nl (f_template t u).data)) = [] :=
    congrArg String.data h
  have hsp : split_nl (f_template t u).data =
      [] :: split_nl (join_nl (List.tail (f_lines t u))) := rfl
  obtain ⟨y, ys, hy⟩ :=
    List.exists_cons_of_ne_nil (split_nl_ne_nil (join_nl (List.tail (f_lines t u))))
  rw [hsp, hy] at hd2
  have hlen := dedent_lines_length (([] : List Char) :: y :: ys)
  cases hdl : dedent_lines (([] : List Char) :: y :: ys) with
  | nil =>
    rw [hdl] at hlen
    simp at hlen
  | cons d1 ds =>
    cases ds with
    | nil =>
      rw [hdl] at hlen
      simp at hlen
    | cons d2 ds2 =>
      rw [hdl] at hd2
      have hj : d1 ++ '\n' :: join_nl (d2 :: ds2) = [] := hd2
      have := (List.append_eq_nil.mp hj).2
      simp at this

set_option maxHeartbeats 4000000 in
/-- For interpolated values without newlines, the dedent of the template
is the fixed dedented trailer: each template line keeps its shape, the
margin is the four-space indent, and stripping it yields
`share_trailer`. -/
theorem dedent_template (t u : String) (ht : '\n' ∉ t.data)
    (hu : '\n' ∉ u.data) :
    dedent (f_template t u) = share_trailer t u := by
  have hsplit : split_nl (f_template t u).data = f_lines t u := by
    refine split_nl_join_nl _ (by simp [f_lines]) ?_
    intro l hl
    simp only [f_lines, List.mem_cons, List.not_mem_nil, or_false] at hl
    rcases hl with rfl | rfl | rfl | rfl | rfl | rfl | rfl | rfl | rfl | rfl |
      rfl | rfl | rfl | rfl | rfl | rfl
    · decide
    · decide
    · decide
    · decide
    · decide
    · decide
    · decide
    · decide
    · decide
    · decide
    · decide
    · decide
    · decide
    · intro hmem
      simp only [List.mem_append] at hmem
      rcases hmem with ((((((h | h) | h) | h) | h) | h) | h)
      · exact absurd h (by decide)
      · exact absurd h (by decide)
      · exact absurd h (by decide)
      · exact ht h
      · exact absurd h (by decide)
      · exact hu h
      · exact absurd h (by decide)
    · intro hmem
      simp only [List.mem_append] at hmem
      rcases hmem with ((((h | h) | h) | h) | h)
      · exact absurd h (by decide)
      · exact absurd h (by decide)
      · exact absurd h (by decide)
      · exact hu h
      · exact absurd h (by decide)
    · decide
  apply String.ext
  have hLHS : (dedent (f_template t u)).data =
      join_nl (dedent_lines (split_nl (f_template t u).data)) := rfl
  rw [hLHS, hsplit]
  simp [f_lines, dedent_lines, share_trailer, trailer_head, btn_close,
    x_intent, fb_sharer, ws_only, is_ws, lcp, join_nl, List.filter,
    String.data_append, List.append_assoc]

/-- C9: a URL path that is exactly `blogs/` or exactly `projects/` is
ineligible — the `.+` of the pattern needs at least one character after
the prefix — so `on_page_markdown` returns the markdown unchanged on
these listing-index paths, whatever the title, page attributes and
config. -/
theorem listing_index_paths_ineligible (markdown title meta : String)
    (config : Config) :
    include_match "blogs/" = false ∧ include_match "projects/" = false
    ∧ on_page_markdown markdown ⟨"blogs/", title, meta⟩ config = markdown
    ∧ on_page_markdown markdown ⟨"projects/", title, meta⟩ config = markdown := by
  refine ⟨by decide, by decide, ?_, ?_⟩
  · simp [on_page_markdown, show include_match "blogs/" = false from by decide]
  · simp [on_page_markdown, show include_match "projects/" = false from by decide]

/-- C8: `on_page_markdown` is deterministic and reads only the page's
`url` and `title` and the config's `site_url`: two invocations whose
inputs agree on those (the pages and configs may differ in every other
attribute) return the identical string.  Mutation of the page or config
is ruled out by the embedding itself: the function's only output is the
returned markdown. -/
theorem on_page_markdown_pure (markdown : String) (p₁ p₂ : Page)
    (c₁ c₂ : Config) (hu : p₁.url = p₂.url) (ht : p₁.title = p₂.title)
    (hs : c₁.site_url = c₂.site_url) :
    on_page_markdown markdown p₁ c₁ = on_page_markdown markdown p₂ c₂ := by
  simp only [on_page_markdown, hu, ht, hs]

/-- C8 witness: same url/title/site_url, different page attributes and
config entries, identical output. -/
theorem on_page_markdown_pure_witness :
    on_page_markdown "B" ⟨"blogs/p", "T", "m1"⟩
        { site_url := "https://x.io/", site_dir := "site", extra := "e1" } =
      on_page_markdown "B" ⟨"blogs/p", "T", "m2"⟩
        { site_url := "https://x.io/", site_dir := "elsewhere", extra := "e2" } :=
  on_page_markdown_pure "B" _ _ _ _ rfl rfl rfl

/-- C10: for every eligible page the output is the input markdown,
verbatim, followed by a non-empty trailer; the original body is never
edited. -/
theorem on_page_markdown_preserves_body (markdown : String) (page : Page)
    (config : Config) (h : include_match page.url = true) :
    ∃ t, on_page_markdown markdown page config = markdown ++ t ∧ t ≠ "" := by
  refine ⟨dedent (f_template (quote (page.title ++ "\n"))
    (config.site_url ++ page.url)), ?_, dedent_f_template_ne _ _⟩
  simp [on_page_markdown, h]

/-- C10 witness at a concrete eligible page. -/
theorem on_page_markdown_preserves_body_witness :
    ∃ t, on_page_markdown "BODY" ⟨"blogs/my-post", "T", ""⟩ cfgX = "BODY" ++ t
      ∧ t ≠ "" :=
  on_page_markdown_preserves_body "BODY" ⟨"blogs/my-post", "T", ""⟩ cfgX
    (by decide)

/-- Splitting the literal `"?text="` seam of the trailer around the
encoded Hello-World title. -/
theorem text_param_split (R : String) :
    "?text=" ++ ("Hello%20World%0A" ++ R) =
      "?" ++ ("text=Hello%20World%0A" ++ R) := by
  rw [← str_append_assoc, ← str_append_assoc]
  have h : ("?text=" ++ "Hello%20World%0A" : String) =
      "?" ++ "text=Hello%20World%0A" := by decide
  rw [h]

/-- Splitting the literal `"&url="` seam of the trailer. -/
theorem url_param_split (R : String) :
    "&url=" ++ R = "&" ++ ("url=" ++ R) := by
  have h : ("&url=" : String) = "&" ++ "url=" := by decide
  rw [h, str_append_assoc]

/-- C4: for the eligible page `blogs/my-post` titled `Hello World`
(whatever its other attributes), and for every site base URL free of
newline characters (the spec's base URL is an absolute URL; a newline
inside it would change the dedent margin computation), the output of
`on_page_markdown` contains `text=Hello%20World%0A` (the percent-encoded
title with its trailing encoded newline) and `url=` followed by the site
base URL concatenated, unnormalized, with `blogs/my-post`. -/
theorem on_page_markdown_hello_world (markdown meta : String)
    (config : Config) (hnl : '\n' ∉ config.site_url.data) :
    (∃ a b, on_page_markdown markdown ⟨"blogs/my-post", "Hello World", meta⟩
          config = a ++ ("text=Hello%20World%0A" ++ b))
    ∧ (∃ c d, on_page_markdown markdown ⟨"blogs/my-post", "Hello World", meta⟩
          config =
        c ++ (("url=" ++ (config.site_url ++ "blogs/my-post")) ++ d)) := by
  have hm : include_match "blogs/my-post" = true := by decide
  have hq : quote ("Hello World" ++ "\n") = "Hello%20World%0A" := by decide
  have hnlu : '\n' ∉ (config.site_url ++ "blogs/my-post").data := by
    rw [String.data_append]
    intro hmem
    rcases List.mem_append.mp hmem with h | h
    · exact hnl h
    · exact absurd h (by decide)
  have hout : on_page_markdown markdown ⟨"blogs/my-post", "Hello World", meta⟩
      config =
      markdown ++ share_trailer "Hello%20World%0A"
        (config.site_url ++ "blogs/my-post") := by
    simp only [on_page_markdown, hm, Bool.not_true, Bool.false_eq_true,
      if_false, hq]
    rw [dedent_template _ _ (by decide) hnlu]
  constructor
  · refine ⟨markdown ++ (trailer_head ++ (x_intent ++ "?")),
      "&url=" ++ ((config.site_url ++ "blogs/my-post") ++ (btn_close ++
        ("[Share on :material-facebook:](" ++ (fb_sharer ++ ("?u=" ++
          ((config.site_url ++ "blogs/my-post") ++ btn_close)))))), ?_⟩
    rw [hout]
    simp only [share_trailer, str_append_assoc]
    rw [text_param_split]
  · refine ⟨markdown ++ (trailer_head ++ (x_intent ++ ("?text=" ++
        ("Hello%20World%0A" ++ "&")))),
      btn_close ++ ("[Share on :material-facebook:](" ++ (fb_sharer ++
        ("?u=" ++ ((config.site_url ++ "blogs/my-post") ++ btn_close)))), ?_⟩
    rw [hout]
    simp only [share_trailer, str_append_assoc]
    rw [url_param_split]

/-- C4 witness at the concrete site base URL (which contains no
newline), discharging the hypothesis. -/
theorem on_page_markdown_hello_world_witness :
    (∃ a b, on_page_markdown "BODY" ⟨"blogs/my-post", "Hello World", ""⟩
          cfgX = a ++ ("text=Hello%20World%0A" ++ b))
    ∧ (∃ c d, on_page_markdown "BODY" ⟨"blogs/my-post", "Hello World", ""⟩
          cfgX =
        c ++ (("url=" ++ (cfgX.site_url ++ "blogs/my-post")) ++ d)) :=
  on_page_markdown_hello_world "BODY" "" cfgX (by decide)

/-- An upper-case hexadecimal digit, as `quote` emits. -/
def is_hex_upper (c : Char) : Bool :=
  c.isDigit || ('A' ≤ c && c ≤ 'F')

/-- Syntactic validity of a percent-encoded string: a sequence of safe
characters and `%XX` escapes with upper-case hexadecimal digits. -/
def pe_valid : List Char → Bool
  | [] => true
  | c :: rest =>
    if c = '%' then
      match rest with
      | h1 :: h2 :: rest2 => is_hex_upper h1 && is_hex_upper h2 && pe_valid rest2
      | _ => false
    else quote_safe c && pe_valid rest

/-- Every byte produced by the UTF-8 encoder is below 256. -/
theorem utf8_bytes_lt (c : Char) : ∀ b ∈ utf8_bytes c, b < 256 := by
  intro b hb
  have hval : c.toNat < 1114112 := by
    have h := c.valid
    simp only [UInt32.isValidChar, Nat.isValidChar] at h
    have he : Char.toNat c = c.val.toNat := rfl
    rw [he]
    omega
  rw [utf8_bytes] at hb
  by_cases h1 : c.toNat < 128
  · simp only [h1, if_true] at hb
    simp at hb
    omega
  · by_cases h2 : c.toNat < 2048
    · simp only [h1, h2, if_true, if_false] at hb
      have hd : c.toNat / 64 < 32 := by omega
      have hm : c.toNat % 64 < 64 := Nat.mod_lt _ (by omega)
      simp at hb
      rcases hb with rfl | rfl <;> omega
    · by_cases h3 : c.toNat < 65536
      · simp only [h1, h2, h3, if_true, if_false] at hb
        have hd : c.toNat / 4096 < 16 := by omega
        have hm1 : (c.toNat / 64) % 64 < 64 := Nat.mod_lt _ (by omega)
        have hm2 : c.toNat % 64 < 64 := Nat.mod_lt _ (by omega)
        simp at hb
        rcases hb with rfl | rfl | rfl <;> omega
      · simp only [h1, h2, h3, if_false] at hb
        have hd : c.toNat / 262144 < 5 := by omega
        have hm1 : (c.toNat / 4096) % 64 < 64 := Nat.mod_lt _ (by omega)
        have hm2 : (c.toNat / 64) % 64 < 64 := Nat.mod_lt _ (by omega)
        have hm3 : c.toNat % 64 < 64 := Nat.mod_lt _ (by omega)
        simp at hb
        rcases hb with rfl | rfl | rfl | rfl <;> omega

/-- `hex_upper` of a value below 16 is an upper-case hexadecimal digit. -/
theorem is_hex_upper_hex_upper : ∀ n < 16, is_hex_upper (hex_upper n) = true := by
  decide

/-- One-step unfolding of `pe_valid` on a cons cell. -/
theorem pe_valid_cons (c : Char) (rest : List Char) :
    pe_valid (c :: rest) =
      if c = '%' then
        match rest with
        | h1 :: h2 :: rest2 =>
            is_hex_upper h1 && is_hex_upper h2 && pe_valid rest2
        | _ => false
      else quote_safe c && pe_valid rest := by
  cases rest with
  | nil => simp [pe_valid]
  | cons h1 t =>
    cases t with
    | nil => simp [pe_valid]
    | cons h2 rest2 => simp [pe_valid]

/-- A `%XX` escape prepended to a valid tail keeps it valid. -/
theorem pe_valid_escape (b : Nat) (hb : b < 256) (rest : List Char) :
    pe_valid ('%' :: hex_upper (b / 16) :: hex_upper (b % 16) :: rest) =
      pe_valid rest := by
  have h1 : is_hex_upper (hex_upper (b / 16)) = true :=
    is_hex_upper_hex_upper _ (by omega)
  have h2 : is_hex_upper (hex_upper (b % 16)) = true :=
    is_hex_upper_hex_upper _ (Nat.mod_lt _ (by omega))
  rw [pe_valid_cons]
  simp [h1, h2]

/-- A safe character prepended to a valid tail keeps it valid. -/
theorem pe_valid_safe (c : Char) (hc : quote_safe c = true) (rest : List Char) :
    pe_valid (c :: rest) = pe_valid rest := by
  have hne : c ≠ '%' := by
    intro h
    subst h
    exact absurd hc (by decide)
  rw [pe_valid_cons]
  simp [hne, hc]

/-- A block of `%XX` escapes of bytes below 256 prepended to a valid
tail keeps it valid. -/
theorem pe_valid_escapes (bs : List Nat) (rest : List Char) :
    (∀ b ∈ bs, b < 256) →
    pe_valid
        (bs.flatMap (fun b => ['%', hex_upper (b / 16), hex_upper (b % 16)])
          ++ rest) =
      pe_valid rest := by
  induction bs with
  | nil =>
    intro _
    simp
  | cons b bs ih =>
    intro h
    simp only [List.flatMap_cons, List.append_assoc, List.cons_append,
      List.nil_append]
    rw [pe_valid_escape b (h b (by simp))]
    exact ih (fun x hx => h x (by simp [hx]))

/-- The percent-encoding of one character preserves validity of the tail. -/
theorem pe_valid_quote_char (c : Char) (rest : List Char) :
    pe_valid (quote_char c ++ rest) = pe_valid rest := by
  by_cases hs : quote_safe c
  · simp only [quote_char, hs, if_true, List.singleton_append]
    exact pe_valid_safe c hs rest
  · simp only [quote_char, hs, Bool.false_eq_true, if_false]
    exact pe_valid_escapes (utf8_bytes c) rest (utf8_bytes_lt c)

/-- C7-helper: `urllib.parse.quote` always produces a syntactically valid
percent-encoded string. -/
theorem pe_valid_quote (s : String) : pe_valid (quote s).data = true := by
  show pe_valid (s.data.flatMap quote_char) = true
  induction s.data with
  | nil => rfl
  | cons c l ih =>
    rw [List.flatMap_cons, pe_valid_quote_char]
    exact ih

/-- The percent-encoding of one character never contains a newline: safe
characters are not newlines, and escapes consist of `%` and upper-case
hexadecimal digits. -/
theorem no_nl_quote_char (c : Char) : '\n' ∉ quote_char c := by
  by_cases hs : quote_safe c
  · simp only [quote_char, hs, if_true]
    intro hmem
    rw [List.mem_singleton] at hmem
    rw [← hmem] at hs
    exact absurd hs (by decide)
  · simp only [quote_char, hs, Bool.false_eq_true, if_false]
    intro hmem
    rw [List.mem_flatMap] at hmem
    obtain ⟨b, hb, hmem⟩ := hmem
    have hblt := utf8_bytes_lt c b hb
    have hhex : ∀ n < 16, hex_upper n ≠ '\n' := by decide
    simp only [List.mem_cons, List.not_mem_nil, or_false] at hmem
    rcases hmem with h | h | h
    · exact absurd h (by decide)
    · exact hhex (b / 16) (by omega) h.symm
    · exact hhex (b % 16) (Nat.mod_lt _ (by omega)) h.symm

/-- `urllib.parse.quote` never emits a newline, so the encoded title can
never disturb the dedent margin of the trailer. -/
theorem quote_no_nl (s : String) : '\n' ∉ (quote s).data := by
  show '\n' ∉ s.data.flatMap quote_char
  induction s.data with
  | nil => simp
  | cons c l ih =>
    rw [List.flatMap_cons]
    intro hmem
    rcases List.mem_append.mp hmem with h | h
    · exact no_nl_quote_char c h
    · exact ih h

/-- C7: for every eligible page, `on_page_markdown` succeeds whatever the
title: it always takes the normal path and appends the dedented trailer,
the percent-encoded title is syntactically valid and newline-free for
every title, and the missing (empty) title encodes to `%0A` (the encoded
trailing newline); the injector has no error path. -/
theorem on_page_markdown_any_title_ok (markdown : String) (page : Page)
    (config : Config) (h : include_match page.url = true) :
    on_page_markdown markdown page config =
      markdown ++ dedent (f_template (quote (page.title ++ "\n"))
        (config.site_url ++ page.url))
    ∧ pe_valid (quote (page.title ++ "\n")).data = true
    ∧ '\n' ∉ (quote (page.title ++ "\n")).data
    ∧ quote ("" ++ "\n") = "%0A" := by
  refine ⟨?_, pe_valid_quote _, quote_no_nl _, by decide⟩
  simp [on_page_markdown, h]

/-- C7 witness at a concrete eligible page with an empty title. -/
theorem on_page_markdown_any_title_ok_witness :
    on_page_markdown "BODY" ⟨"blogs/my-post", "", ""⟩ cfgX =
      "BODY" ++ dedent (f_template (quote ("" ++ "\n"))
        (cfgX.site_url ++ "blogs/my-post"))
    ∧ pe_valid (quote ("" ++ "\n")).data = true
    ∧ '\n' ∉ (quote ("" ++ "\n")).data
    ∧ quote ("" ++ "\n") = "%0A" :=
  on_page_markdown_any_title_ok "BODY" ⟨"blogs/my-post", "", ""⟩ cfgX
    (by decide)

/-- The remainder test as the eligibility claim words it: the text after
the prefix must not start with `archive` or with `category`. -/
def claimed_remainder_ok (rem : List Char) : Bool :=
  !(("archive" : String).data.isPrefixOf rem) &&
    !(("category" : String).data.isPrefixOf rem)

/-- Eligibility as the claim states it (second definition, following the
spec's words, for comparison with the code's `include_match`): the path
starts with `blogs/` or `projects/` and the remainder does not start with
`archive` or `category`; matching anchored at the start. -/
def claimed_eligible (url : String) : Bool :=
  (("blogs/" : String).data.isPrefixOf url.data &&
    claimed_remainder_ok (url.data.drop 6)) ||
  (("projects/" : String).data.isPrefixOf url.data &&
    claimed_remainder_ok (url.data.drop 9))

/-- The `.+` of the pattern: the remainder is non-empty and its first
character is not a newline. -/
def head_not_newline : List Char → Bool
  | [] => false
  | c :: _ => c != '\n'

/-- Eligibility as the amended claim words it: as claimed, plus the
remainder after the prefix must be non-empty with a first character other
than a newline. -/
def amended_eligible (url : String) : Bool :=
  (("blogs/" : String).data.isPrefixOf url.data &&
    (claimed_remainder_ok (url.data.drop 6) &&
      head_not_newline (url.data.drop 6))) ||
  (("projects/" : String).data.isPrefixOf url.data &&
    (claimed_remainder_ok (url.data.drop 9) &&
      head_not_newline (url.data.drop 9)))

/-- `.+` matched with the always-true continuation only tests the first
remaining character. -/
theorem matPlus_head (r : List Char) :
    matPlus (fun c => c != '\n') r (fun _ => true) = head_not_newline r := by
  cases r <;> simp [matPlus, head_not_newline]

/-- Prefix tests decompose along literal concatenation. -/
theorem isPrefixOf_append (a b s : List Char) :
    (a ++ b).isPrefixOf s =
      (a.isPrefixOf s && b.isPrefixOf (s.drop a.length)) := by
  induction a generalizing s with
  | nil => simp [List.isPrefixOf]
  | cons c a ih =>
    cases s with
    | nil => simp [List.isPrefixOf]
    | cons d s => simp [List.isPrefixOf, ih, Bool.and_assoc]

/-- C3-counterexample: at the concrete path `blogs/`, the claimed
eligibility predicate holds (the path starts with `blogs/` and the empty
remainder starts with neither `archive` nor `category`) yet the code's
pattern does not match, so the claimed equivalence is false. -/
theorem eligibility_claim_counterexample :
    claimed_eligible "blogs/" = true ∧ include_match "blogs/" = false := by
  constructor <;> decide

/-- C3 (amended): the code's eligibility test agrees exactly with the
amended predicate — prefix `blogs/` or `projects/`, remainder not
starting with `archive`/`category`, and remainder non-empty with a
non-newline first character — and every ineligible page's markdown is
returned unchanged. -/
theorem include_match_partition (markdown : String) (page : Page)
    (config : Config) :
    include_match page.url = amended_eligible page.url
    ∧ (include_match page.url = false →
        on_page_markdown markdown page config = markdown) := by
  constructor
  · generalize page.url = url
    have h1 : ("blogs/" : String).data =
        ("blogs" : String).data ++ ("/" : String).data := by decide
    have h2 : ("projects/" : String).data =
        ("projects" : String).data ++ ("/" : String).data := by decide
    have h3 : ("blogs" : String).data.length = 5 := by decide
    have h4 : ("projects" : String).data.length = 8 := by decide
    simp only [include_match, include_re, mat, matPlus_head, amended_eligible,
      claimed_remainder_ok, h1, h2, isPrefixOf_append, h3, h4,
      List.drop_drop, Bool.not_or, Bool.and_assoc]
    have hsplitb : ∀ s : List Char,
        (['b', 'l', 'o', 'g', 's', '/'] : List Char).isPrefixOf s =
          ((['b', 'l', 'o', 'g', 's'] : List Char).isPrefixOf s &&
            (['/'] : List Char).isPrefixOf (s.drop 5)) := by
      intro s
      simpa using isPrefixOf_append ['b', 'l', 'o', 'g', 's'] ['/'] s
    have hsplitp : ∀ s : List Char,
        (['p', 'r', 'o', 'j', 'e', 'c', 't', 's', '/'] : List Char).isPrefixOf s =
          ((['p', 'r', 'o', 'j', 'e', 'c', 't', 's'] : List Char).isPrefixOf s &&
            (['/'] : List Char).isPrefixOf (s.drop 8)) := by
      intro s
      simpa using isPrefixOf_append ['p', 'r', 'o', 'j', 'e', 'c', 't', 's'] ['/'] s
    rw [hsplitb, hsplitp]
    simp [Bool.and_assoc]
  · intro h
    simp [on_page_markdown, h]

/-- C3 witness at the concrete ineligible path `about/`: the partition
theorem applied there, with its unchanged-markdown hypothesis
discharged. -/
theorem include_match_partition_witness :
    include_match "about/" = amended_eligible "about/"
    ∧ on_page_markdown "BODY" ⟨"about/", "T", ""⟩ cfgX = "BODY" := by
  have h := include_match_partition "BODY" ⟨"about/", "T", ""⟩ cfgX
  exact ⟨h.1, h.2 (by decide)⟩
